import Mathlib

/-!
Shallow embedding of the quote-resolution service in `main.py` (kingmaker-api).

The service resolves stock ticker symbols to prices.  Module state is the
cache `CACHE : ticker -> {"price": float, "ts": epoch}` with `TTL = 60`
seconds.  Two upstream providers are consulted: Yahoo (JSON, with a retry
loop over HTTP statuses 429/500/502/503/504, sleeping `0.6 * (attempt+1)`
seconds between attempts, at most 4 attempts) and Stooq (CSV, one attempt).
Endpoints: `stock_quote` (single ticker) and `batch_quotes` (comma-separated
list).

Modelling choices:
* Python float prices are modelled as `ℚ`; the code never does arithmetic
  on a price, only stores and compares it.
* The clock (`time.time()` values, TTL, sleep durations) is modelled in
  integer milliseconds, so `TTL = 60` seconds becomes `60000` and the
  `0.6 * (attempt+1)` second backoff sleep becomes `600 * (attempt+1)`.
* Python dicts are association lists with first-occurrence update
  (`getd` / `setd`); keys built by the code are unique, so this matches
  Python dict semantics.
* Upstream HTTP traffic is an oracle: Yahoo gets a function from attempt
  number to an attempt outcome — either a raised transport exception (the
  `await client.get(url)` at main.py line 36 sits outside the `try`, so
  such an exception propagates uncaught out of `yahoo_fetch` and aborts
  the calling endpoint) or a response (status plus parsed JSON body,
  `none` for a body whose structure makes parsing fail); Stooq gets a
  single outcome (a transport error, which its own `try/except` catches,
  or a status plus parsed CSV rows).
* Each upstream GET and each `time.sleep` is recorded in an event trace;
  a GET is stamped with the wall-clock time at which it is issued, network
  latency is modelled as zero, and `time.sleep d` advances the clock by `d`.
* `HTTPException` raised by the endpoints becomes an error value
  (status code, detail string).
-/

abbrev Q := ℚ

/-- Python `str.upper()` (ASCII is all the code uses). -/
def upper (s : String) : String := ⟨s.data.map Char.toUpper⟩

/-- Python `str.lower()`. -/
def lower (s : String) : String := ⟨s.data.map Char.toLower⟩

/-- Python `str.strip()`: drop leading and trailing whitespace. -/
def strip (s : String) : String :=
  ⟨((s.data.dropWhile Char.isWhitespace).reverse.dropWhile
      Char.isWhitespace).reverse⟩

/-- Python `str.split(",")` on the character list: split at every comma,
keeping empty pieces. -/
def splitCommaAux : List Char → List Char → List String
  | [], acc => [⟨acc.reverse⟩]
  | c :: rest, acc =>
    if c = ',' then (⟨acc.reverse⟩ : String) :: splitCommaAux rest []
    else splitCommaAux rest (c :: acc)

/-- Python `symbols.split(",")`. -/
def splitComma (s : String) : List String := splitCommaAux s.data []

/-- Python dict read, `d.get(k)`: value at the first occurrence of key `k`. -/
def getd {α : Type} : List (String × α) → String → Option α
  | [], _ => none
  | (k1, v) :: rest, k => if k1 = k then some v else getd rest k

/-- Python dict write, `d[k] = v`: update the first occurrence of `k` in
place, or append a new binding. -/
def setd {α : Type} : List (String × α) → String → α → List (String × α)
  | [], k, v => [(k, v)]
  | (k1, v1) :: rest, k, v =>
    if k1 = k then (k, v) :: rest else (k1, v1) :: setd rest k v

/-- The keys of an association list, in order. -/
def keys {α : Type} (m : List (String × α)) : List String := m.map Prod.fst

/-- Observable upstream events: an HTTP GET to a provider stamped with the
time it is issued, or a `time.sleep` of a given duration. -/
inductive Ev : Type
  | call (provider : String) (t : Int)
  | sleep (d : Int)
deriving DecidableEq, Repr

/-- `TTL = 60` seconds (main.py line 27), in milliseconds. -/
def TTL : Int := 60000

/-! ### Yahoo adapter (`yahoo_fetch`, main.py lines 31-57) -/

/-- One element of `data["quoteResponse"]["result"]`: the fields
`symbol` and `regularMarketPrice` the code reads (either may be missing). -/
structure YahooItem : Type where
  symbol : Option String
  price : Option Q
deriving DecidableEq, Repr

/-- One outcome of a single Yahoo GET attempt: `err` when
`await client.get(url)` (main.py line 36) raises a transport exception —
that line is outside the `try` beginning at line 38, so the exception
propagates uncaught out of `yahoo_fetch` — or an HTTP response with its
status code and parsed JSON body (`none` when `r.json()` or the result
extraction raises). -/
inductive YahooOutcome : Type
  | err
  | resp (status : Nat) (body : Option (List YahooItem))
deriving DecidableEq, Repr

/-- The retryable statuses of main.py line 50:
`r.status_code in (429, 500, 502, 503, 504)`. -/
def retryable (st : Nat) : Bool :=
  st = 429 || st = 500 || st = 502 || st = 503 || st = 504

/-- The parse loop of main.py lines 41-45: for each result item take
`symbol` (missing mapped to `""`) uppercased and `regularMarketPrice`;
record the price when the symbol is nonempty and the price present. -/
def yahooApply (out : List (String × Option Q)) (items : List YahooItem) :
    List (String × Option Q) :=
  items.foldl (fun o item =>
    let sym := upper (item.symbol.getD "")
    match item.price with
    | some p => if sym = "" then o else setd o sym (some p)
    | none => o) out

/-- Python `{s: None for s in symbols}`. -/
def initNone (symbols : List String) : List (String × Option Q) :=
  symbols.foldl (fun o s => setd o s none) []

/-- The attempt loop of `yahoo_fetch` (main.py lines 35-57).  Arguments:
remaining iterations, current attempt index, the `out` dict, the clock.
Returns `some out` — or `none` when a GET raised a transport exception,
which the Python propagates uncaught — together with the event trace and
the clock at return. -/
def yahooLoop (oracle : Nat → YahooOutcome) :
    Nat → Nat → List (String × Option Q) → Int →
    Option (List (String × Option Q)) × List Ev × Int
  | 0, _, out, t => (some out, [], t)
  | remaining + 1, attempt, out, t =>
    match oracle attempt with
    | YahooOutcome.err => (none, [Ev.call "yahoo" t], t)
    | YahooOutcome.resp status body =>
      if status = 200 then
        match body with
        | some items =>
          (some (yahooApply out items), [Ev.call "yahoo" t], t)
        | none => (some out, [Ev.call "yahoo" t], t)
      else if retryable status then
        let d : Int := 600 * ((attempt : Int) + 1)
        let rest := yahooLoop oracle remaining (attempt + 1) out (t + d)
        (rest.1, Ev.call "yahoo" t :: Ev.sleep d :: rest.2.1, rest.2.2)
      else
        (some out, [Ev.call "yahoo" t], t)

/-- `yahoo_fetch(symbols)` (main.py lines 31-57), given the upstream oracle
and a start time.  `600` milliseconds is the `0.6` second base delay; a
`none` result is an uncaught transport exception escaping the function. -/
def yahoo_fetch (oracle : Nat → YahooOutcome) (symbols : List String)
    (t0 : Int) : Option (List (String × Option Q)) × List Ev × Int :=
  yahooLoop oracle 4 0 (initNone symbols) t0

/-! ### Stooq adapter (`_parse_stooq_csv` and `stooq_fetch`,
main.py lines 61-108) -/

/-- The `Close` CSV field as the code distinguishes it: the literal `N/D`,
a string `float()` rejects, or a numeric value. -/
inductive CloseVal : Type
  | nd
  | bad
  | num (q : Q)
deriving DecidableEq, Repr

/-- One CSV row: the `Symbol` and `Close` columns (either may be absent). -/
structure StooqRow : Type where
  symbol : Option String
  close : Option CloseVal
deriving DecidableEq, Repr

/-- One outcome of the Stooq GET: a raised transport exception, or a status
code with parsed CSV rows. -/
inductive StooqOutcome : Type
  | err
  | resp (status : Nat) (rows : List StooqRow)
deriving DecidableEq, Repr

/-- main.py lines 73-77: `None if (close is None or close == "N/D") else
float(close)`, with `None` on a `float()` failure. -/
def parseCloseVal : Option CloseVal → Option Q
  | none => none
  | some CloseVal.nd => none
  | some CloseVal.bad => none
  | some (CloseVal.num q) => some q

/-- `_parse_stooq_csv` (main.py lines 61-78): map each row's uppercased
symbol to its parsed close value, skipping rows with an empty symbol. -/
def parse_stooq_csv (rows : List StooqRow) : List (String × Option Q) :=
  rows.foldl (fun out row =>
    let sym := upper (row.symbol.getD "")
    if sym = "" then out else setd out sym (parseCloseVal row.close)) []

/-- `to_stooq_symbol` (main.py lines 85-88): lowercase, and append `.us`
unless the symbol already contains a dot. -/
def to_stooq_symbol (s : String) : String :=
  let s_low := lower s
  if s_low.data.contains '.' then s_low else s_low ++ ".us"

/-- `stooq_fetch(symbols)` (main.py lines 80-108), given the upstream
outcome and a start time. -/
def stooq_fetch (oracle : StooqOutcome) (symbols : List String)
    (t0 : Int) : List (String × Option Q) × List Ev × Int :=
  let out0 := initNone symbols
  match oracle with
  | StooqOutcome.err => (out0, [Ev.call "stooq" t0], t0)
  | StooqOutcome.resp st rows =>
    if st = 200 then
      let parsed := parse_stooq_csv rows
      let out := symbols.foldl (fun o original =>
        let stooq_key := upper (to_stooq_symbol original)
        let val := getd parsed stooq_key
        setd o original (val.bind id)) out0
      (out, [Ev.call "stooq" t0], t0)
    else (out0, [Ev.call "stooq" t0], t0)

/-! ### Single-symbol endpoint (`stock_quote`, main.py lines 116-137) -/

/-- A cache entry `{"price": ..., "ts": ...}`.  The price field is kept as
`Option Q` so that the invariant "a cached price is never `None`" is a
statement, not a typing artefact. -/
structure Entry : Type where
  price : Option Q
  ts : Int
deriving DecidableEq, Repr

/-- The module-level `CACHE` dict. -/
abbrev Cache := List (String × Entry)

/-- The two upstream oracles a request runs against. -/
structure Oracles : Type where
  yahoo : Nat → YahooOutcome
  stooq : StooqOutcome

/-- The endpoint result: the JSON payload of a 200 response, a raised
`HTTPException` (status code, detail), or an uncaught exception escaping
the endpoint (a Yahoo transport error, which main.py does not catch). -/
inductive StockResult : Type
  | ok (ticker : String) (price : Option Q) (cached : Bool)
  | httpError (status : Nat) (detail : String)
  | uncaught
deriving DecidableEq, Repr

/-- main.py lines 122: `t in CACHE and (now - CACHE[t]["ts"]) < TTL`. -/
def cacheFresh (cache : Cache) (now : Int) (t : String) : Bool :=
  match getd cache t with
  | some e => decide (now - e.ts < TTL)
  | none => false

/-- The cache-miss path of `stock_quote` (main.py lines 125-137): Yahoo,
then Stooq as fallback, then a 502; a found price is written to the cache
with timestamp `now`. -/
def stock_quote_fetch (ora : Oracles) (cache : Cache) (now : Int)
    (t : String) : StockResult × Cache × List Ev :=
  let yr := yahoo_fetch ora.yahoo [t] now
  match yr.1 with
  | none => (StockResult.uncaught, cache, yr.2.1)
  | some y =>
    match (getd y t).bind id with
    | some p =>
      (StockResult.ok t (some p) false, setd cache t ⟨some p, now⟩, yr.2.1)
    | none =>
      let sr := stooq_fetch ora.stooq [t] yr.2.2
      match (getd sr.1 t).bind id with
      | some p =>
        (StockResult.ok t (some p) false, setd cache t ⟨some p, now⟩,
          yr.2.1 ++ sr.2.1)
      | none =>
        (StockResult.httpError 502 "Price unavailable", cache,
          yr.2.1 ++ sr.2.1)

/-- `GET /stock/{ticker}` (main.py lines 116-137).  Takes the current cache
and clock; returns the result, the new cache, and the upstream event
trace. -/
def stock_quote (ora : Oracles) (cache : Cache) (now : Int)
    (ticker : String) : StockResult × Cache × List Ev :=
  let t := upper ticker
  match getd cache t with
  | some e =>
    if now - e.ts < TTL then (StockResult.ok t e.price true, cache, [])
    else stock_quote_fetch ora cache now t
  | none => stock_quote_fetch ora cache now t

/-! ### Batch endpoint (`batch_quotes`, main.py lines 139-190) -/

/-- main.py line 149:
`[s.strip().upper() for s in symbols.split(",") if s.strip()]`. -/
def parseSymbols (symbols : String) : List String :=
  (splitComma symbols).filterMap (fun s =>
    let st := strip s
    if st = "" then none else some (upper st))

/-- The cache pass of `batch_quotes` (main.py lines 158-162): fresh hits go
to `out`, the rest are appended to `to_fetch` in order. -/
def cachePassAux (cache : Cache) (now : Int) :
    List String → List (String × Option Q) → List String →
    List (String × Option Q) × List String
  | [], out, tf => (out, tf)
  | t :: rest, out, tf =>
    match getd cache t with
    | some e =>
      if now - e.ts < TTL then
        cachePassAux cache now rest (setd out t e.price) tf
      else cachePassAux cache now rest out (tf ++ [t])
    | none => cachePassAux cache now rest out (tf ++ [t])

/-- The Yahoo fill loop of `batch_quotes` (main.py lines 168-174): for each
`to_fetch` symbol with a Yahoo price, record it in `out` and the cache;
append the others to `still`. -/
def yahooFillAux (y : List (String × Option Q)) (now : Int) :
    List String → List (String × Option Q) → Cache → List String →
    List (String × Option Q) × Cache × List String
  | [], out, cache, still => (out, cache, still)
  | t :: rest, out, cache, still =>
    match (getd y t).bind id with
    | some p =>
      yahooFillAux y now rest (setd out t (some p))
        (setd cache t ⟨some p, now⟩) still
    | none => yahooFillAux y now rest out cache (still ++ [t])

/-- The Stooq fill loop of `batch_quotes` (main.py lines 179-184): record a
found price in `out` and the cache, otherwise set the symbol to `None`. -/
def stooqFillAux (s : List (String × Option Q)) (now : Int) :
    List String → List (String × Option Q) → Cache →
    List (String × Option Q) × Cache
  | [], out, cache => (out, cache)
  | t :: rest, out, cache =>
    match (getd s t).bind id with
    | some p =>
      stooqFillAux s now rest (setd out t (some p))
        (setd cache t ⟨some p, now⟩)
    | none => stooqFillAux s now rest (setd out t none) cache

/-- main.py lines 187-188: `out.setdefault(t, None)` for every requested
symbol. -/
def setdefaults : List String → List (String × Option Q) →
    List (String × Option Q)
  | [], o => o
  | t :: rest, o =>
    match getd o t with
    | some _ => setdefaults rest o
    | none => setdefaults rest (setd o t none)

/-- The batch endpoint result: the payload map of a 200 response, a raised
`HTTPException`, or an uncaught exception escaping the endpoint (a Yahoo
transport error, which main.py does not catch). -/
inductive BatchResult : Type
  | ok (m : List (String × Option Q))
  | httpError (status : Nat) (detail : String)
  | uncaught
deriving DecidableEq, Repr

/-- `GET /batch?symbols=...` (main.py lines 139-190).  Returns the result,
the new cache, and the upstream event trace. -/
def batch_quotes (ora : Oracles) (cache : Cache) (now : Int)
    (symbols : String) : BatchResult × Cache × List Ev :=
  if symbols = "" then
    (BatchResult.httpError 400 "symbols required", cache, [])
  else
    let req := parseSymbols symbols
    if req = [] then
      (BatchResult.httpError 400 "no valid symbols", cache, [])
    else
      let cp := cachePassAux cache now req [] []
      if cp.2 = [] then (BatchResult.ok (setdefaults req cp.1), cache, [])
      else
        let yr := yahoo_fetch ora.yahoo cp.2 now
        match yr.1 with
        | none => (BatchResult.uncaught, cache, yr.2.1)
        | some y =>
          let yf := yahooFillAux y now cp.2 cp.1 cache []
          if yf.2.2 = [] then
            (BatchResult.ok (setdefaults req yf.1), yf.2.1, yr.2.1)
          else
            let sr := stooq_fetch ora.stooq yf.2.2 yr.2.2
            let sf := stooqFillAux sr.1 now yf.2.2 yf.1 yf.2.1
            (BatchResult.ok (setdefaults req sf.1), sf.2, yr.2.1 ++ sr.2.1)

/-- Observer for the batch endpoint payload: the map of an `ok` response. -/
def okMap : BatchResult → Option (List (String × Option Q))
  | BatchResult.ok m => some m
  | BatchResult.httpError _ _ => none
  | BatchResult.uncaught => none

/-- A well-formed cache: every stored entry has a non-`None` price. -/
def goodCache (c : Cache) : Prop :=
  ∀ t e, getd c t = some e → e.price.isSome

/-- Is this event an upstream HTTP GET? -/
def isCall : Ev → Bool
  | Ev.call _ _ => true
  | Ev.sleep _ => false

/-- The number of upstream HTTP GETs in a trace. -/
def countCalls (evs : List Ev) : Nat := (evs.filter isCall).length

/-! ### Association-list lemmas -/

theorem getd_setd_self {α : Type} (m : List (String × α)) (k : String)
    (v : α) : getd (setd m k v) k = some v := by
  induction m with
  | nil => simp [setd, getd]
  | cons p rest ih =>
    obtain ⟨k1, v1⟩ := p
    by_cases h : k1 = k
    · simp [setd, h, getd]
    · simp [setd, h, getd, ih]

theorem getd_setd_ne {α : Type} (m : List (String × α)) {k k1 : String}
    (v : α) (h : k1 ≠ k) : getd (setd m k v) k1 = getd m k1 := by
  have hne : ¬ k = k1 := fun hh => h hh.symm
  induction m with
  | nil =>
    simp only [setd, getd]
    rw [if_neg hne]
  | cons p rest ih =>
    obtain ⟨k2, v2⟩ := p
    by_cases h2 : k2 = k
    · subst h2
      simp only [setd, if_pos rfl, getd]
      rw [if_neg hne, if_neg hne]
    · simp only [setd, if_neg h2, getd]
      by_cases h3 : k2 = k1 <;> simp [h3, ih]

theorem isSome_getd_setd {α : Type} (m : List (String × α)) (k k1 : String)
    (v : α) (h : (getd m k1).isSome) :
    (getd (setd m k v) k1).isSome := by
  by_cases hk : k1 = k
  · subst hk; rw [getd_setd_self]; rfl
  · rwa [getd_setd_ne m v hk]

theorem mem_keys_setd {α : Type} (m : List (String × α)) (k a : String)
    (v : α) : a ∈ keys (setd m k v) ↔ a ∈ keys m ∨ a = k := by
  induction m with
  | nil => simp [setd, keys]
  | cons p rest ih =>
    obtain ⟨k1, v1⟩ := p
    by_cases h : k1 = k
    · subst h
      rw [show setd ((k1, v1) :: rest) k1 v = (k1, v) :: rest by simp [setd]]
      simp only [keys, List.map_cons, List.mem_cons]
      tauto
    · simp only [setd, if_neg h, keys, List.map_cons, List.mem_cons]
      simp only [keys] at ih
      rw [ih]
      tauto

theorem nodup_keys_setd {α : Type} (m : List (String × α)) (k : String)
    (v : α) (h : (keys m).Nodup) : (keys (setd m k v)).Nodup := by
  induction m with
  | nil => simp [setd, keys]
  | cons p rest ih =>
    obtain ⟨k1, v1⟩ := p
    simp only [keys, List.map_cons, List.nodup_cons] at h
    by_cases hk : k1 = k
    · subst hk
      simpa [setd, keys, List.nodup_cons] using h
    · simp only [setd, if_neg hk, keys, List.map_cons, List.nodup_cons]
      refine ⟨fun hmem => ?_, ih h.2⟩
      rcases (mem_keys_setd rest k k1 v).mp hmem with h1 | h1
      · exact h.1 h1
      · exact hk h1

theorem getd_isSome_iff_mem_keys {α : Type} (m : List (String × α))
    (k : String) : (getd m k).isSome ↔ k ∈ keys m := by
  induction m with
  | nil => simp [getd, keys]
  | cons p rest ih =>
    obtain ⟨k1, v1⟩ := p
    simp only [keys, List.map_cons, List.mem_cons]
    by_cases h : k1 = k
    · subst h; simp [getd]
    · simp only [getd, if_neg h]
      simp only [keys] at ih
      rw [ih]
      constructor
      · exact fun hh => Or.inr hh
      · rintro (hh | hh)
        · exact absurd hh.symm h
        · exact hh

/-- A fold that sets every key of `l` to a value depending only on the key:
the result at `t` is `f t` for `t ∈ l`, untouched otherwise. -/
theorem getd_foldl_set_fn (f : String → Option Q) :
    ∀ (l : List String) (m : List (String × Option Q)) (t : String),
      getd (l.foldl (fun o u => setd o u (f u)) m) t =
        if t ∈ l then some (f t) else getd m t := by
  intro l
  induction l with
  | nil => simp
  | cons u rest ih =>
    intro m t
    rw [List.foldl_cons, ih]
    by_cases h : t ∈ rest
    · simp [h]
    · by_cases h2 : t = u
      · subst h2; simp [h, getd_setd_self]
      · simp [h, h2, getd_setd_ne m (f u) h2]

theorem getd_initNone (l : List String) (t : String) :
    getd (initNone l) t = if t ∈ l then some none else none := by
  have h := getd_foldl_set_fn (fun _ => none) l [] t
  simpa [initNone] using h

theorem goodCache_setd (c : Cache) (t : String) (p : Q) (ts : Int)
    (h : goodCache c) : goodCache (setd c t ⟨some p, ts⟩) := by
  intro t1 e1 h1
  by_cases ht : t1 = t
  · subst ht
    rw [getd_setd_self] at h1
    cases h1
    rfl
  · rw [getd_setd_ne c _ ht] at h1
    exact h t1 e1 h1

/-! ### `setdefaults` lemmas -/

theorem getd_setdefaults_preserve (l : List String)
    (o : List (String × Option Q)) (t : String) (v : Option Q)
    (h : getd o t = some v) : getd (setdefaults l o) t = some v := by
  induction l generalizing o with
  | nil => simpa [setdefaults] using h
  | cons u rest ih =>
    simp only [setdefaults]
    cases hu : getd o u with
    | some w => exact ih o h
    | none =>
      apply ih
      by_cases ht : t = u
      · subst ht; rw [h] at hu; cases hu
      · rwa [getd_setd_ne o _ ht]

theorem getd_setdefaults_isSome (l : List String)
    (o : List (String × Option Q)) (t : String) (h : t ∈ l) :
    (getd (setdefaults l o) t).isSome := by
  induction l generalizing o with
  | nil => cases h
  | cons u rest ih =>
    simp only [setdefaults]
    rcases List.mem_cons.mp h with ht | ht
    · subst ht
      cases hu : getd o t with
      | some w =>
        have := getd_setdefaults_preserve rest o t w hu
        rw [this]; rfl
      | none =>
        have := getd_setdefaults_preserve rest (setd o t none) t none
          (getd_setd_self o t none)
        rw [this]; rfl
    · cases hu : getd o u with
      | some w => exact ih o ht
      | none => exact ih (setd o u none) ht

theorem nodup_keys_setdefaults (l : List String)
    (o : List (String × Option Q)) (h : (keys o).Nodup) :
    (keys (setdefaults l o)).Nodup := by
  induction l generalizing o with
  | nil => simpa [setdefaults] using h
  | cons u rest ih =>
    simp only [setdefaults]
    cases hu : getd o u with
    | some w => exact ih o h
    | none => exact ih (setd o u none) (nodup_keys_setd o u none h)

/-! ### Yahoo loop lemmas -/

theorem retryable_ne_200 {st : Nat} (h : retryable st = true) : st ≠ 200 := by
  simp only [retryable, Bool.or_eq_true, decide_eq_true_eq] at h
  omega

theorem yahooLoop_events (oracle : Nat → YahooOutcome) :
    ∀ (r a : Nat) (out : List (String × Option Q)) (t : Int),
      ∀ ev ∈ (yahooLoop oracle r a out t).2.1,
        (∃ u, ev = Ev.call "yahoo" u) ∨ ∃ d, ev = Ev.sleep d := by
  intro r
  induction r with
  | zero => intro a out t ev h; simp [yahooLoop] at h
  | succ n ih =>
    intro a out t ev h
    simp only [yahooLoop] at h
    cases hor : oracle a with
    | err =>
      rw [hor] at h
      simp at h
      exact Or.inl ⟨t, h⟩
    | resp status body =>
      rw [hor] at h
      simp only at h
      by_cases h200 : status = 200
      · rw [if_pos h200] at h
        cases hb : body with
        | some items =>
          rw [hb] at h
          simp at h
          exact Or.inl ⟨t, h⟩
        | none =>
          rw [hb] at h
          simp at h
          exact Or.inl ⟨t, h⟩
      · rw [if_neg h200] at h
        by_cases hr : retryable status
        · rw [if_pos hr] at h
          simp only [List.mem_cons] at h
          rcases h with h | h | h
          · exact Or.inl ⟨t, h⟩
          · exact Or.inr ⟨_, h⟩
          · exact ih (a + 1) out _ ev h
        · rw [if_neg hr] at h
          simp at h
          exact Or.inl ⟨t, h⟩

theorem yahooLoop_head (oracle : Nat → YahooOutcome) (r a : Nat)
    (out : List (String × Option Q)) (t : Int) :
    ∃ rest, (yahooLoop oracle (r + 1) a out t).2.1 =
      Ev.call "yahoo" t :: rest := by
  simp only [yahooLoop]
  cases hor : oracle a with
  | err => exact ⟨[], rfl⟩
  | resp status body =>
    simp only
    by_cases h200 : status = 200
    · rw [if_pos h200]
      cases hb : body with
      | some items => exact ⟨[], rfl⟩
      | none => exact ⟨[], rfl⟩
    · rw [if_neg h200]
      by_cases hr : retryable status
      · rw [if_pos hr]
        exact ⟨_, rfl⟩
      · rw [if_neg hr]
        exact ⟨[], rfl⟩

theorem yahooLoop_countCalls (oracle : Nat → YahooOutcome) :
    ∀ (r a : Nat) (out : List (String × Option Q)) (t : Int),
      countCalls (yahooLoop oracle r a out t).2.1 ≤ r := by
  intro r
  induction r with
  | zero => intro a out t; simp [yahooLoop, countCalls]
  | succ n ih =>
    intro a out t
    simp only [yahooLoop]
    cases hor : oracle a with
    | err => simp [countCalls, isCall]
    | resp status body =>
      simp only
      by_cases h200 : status = 200
      · rw [if_pos h200]
        cases hb : body with
        | some items => simp [countCalls, isCall]
        | none => simp [countCalls, isCall]
      · rw [if_neg h200]
        by_cases hr : retryable status
        · rw [if_pos hr]
          have := ih (a + 1) out (t + 600 * ((a : Int) + 1))
          simp only [countCalls] at this ⊢
          simp only [List.filter_cons, isCall, List.length_cons]
          norm_num
          omega
        · rw [if_neg hr]
          simp [countCalls, isCall]

/-- If no attempt raises a transport exception, the Yahoo loop returns a
result map rather than propagating an exception. -/
theorem yahooLoop_no_err (oracle : Nat → YahooOutcome)
    (h : ∀ n, oracle n ≠ YahooOutcome.err) :
    ∀ (r a : Nat) (out : List (String × Option Q)) (t : Int),
      ∃ y, (yahooLoop oracle r a out t).1 = some y := by
  intro r
  induction r with
  | zero => intro a out t; exact ⟨out, rfl⟩
  | succ n ih =>
    intro a out t
    simp only [yahooLoop]
    cases hor : oracle a with
    | err => exact absurd hor (h a)
    | resp status body =>
      simp only
      by_cases h200 : status = 200
      · rw [if_pos h200]
        cases hb : body with
        | some items => exact ⟨_, rfl⟩
        | none => exact ⟨out, rfl⟩
      · rw [if_neg h200]
        by_cases hr : retryable status
        · rw [if_pos hr]
          exact ih (a + 1) out _
        · rw [if_neg hr]
          exact ⟨out, rfl⟩

/-! ### Stooq lemmas -/

theorem stooq_trace (oracle : StooqOutcome) (syms : List String) (t0 : Int) :
    (stooq_fetch oracle syms t0).2.1 = [Ev.call "stooq" t0] := by
  cases oracle with
  | err => rfl
  | resp st rows =>
    simp only [stooq_fetch]
    by_cases h : st = 200
    · rw [if_pos h]
    · rw [if_neg h]

theorem stooq_fetch_getd_200 (rows : List StooqRow) (syms : List String)
    (t0 : Int) (t : String) (h : t ∈ syms) :
    getd (stooq_fetch (StooqOutcome.resp 200 rows) syms t0).1 t =
      some ((getd (parse_stooq_csv rows)
        (upper (to_stooq_symbol t))).bind id) := by
  show getd (List.foldl (fun o u =>
      setd o u ((getd (parse_stooq_csv rows)
        (upper (to_stooq_symbol u))).bind id)) (initNone syms) syms) t = _
  rw [getd_foldl_set_fn
    (fun u => (getd (parse_stooq_csv rows) (upper (to_stooq_symbol u))).bind id)
    syms (initNone syms) t]
  rw [if_pos h]

theorem stooq_fetch_keys (oracle : StooqOutcome) (syms : List String)
    (t0 : Int) (t : String) :
    (getd (stooq_fetch oracle syms t0).1 t).isSome ↔ t ∈ syms := by
  have hinit : (getd (initNone syms) t).isSome ↔ t ∈ syms := by
    rw [getd_initNone]
    by_cases h : t ∈ syms <;> simp [h]
  cases oracle with
  | err => simpa [stooq_fetch] using hinit
  | resp st rows =>
    simp only [stooq_fetch]
    by_cases h : st = 200
    · rw [if_pos h]
      show (getd (List.foldl _ (initNone syms) syms) t).isSome ↔ t ∈ syms
      rw [getd_foldl_set_fn
        (fun u =>
          (getd (parse_stooq_csv rows) (upper (to_stooq_symbol u))).bind id)
        syms (initNone syms) t]
      by_cases hm : t ∈ syms
      · simp [hm]
      · simp only [if_neg hm]
        simp only [hm, iff_false]
        intro hcon
        exact hm (hinit.mp hcon)
    · rw [if_neg h]
      exact hinit

/-! ### Cache-pass lemmas -/

theorem cachePassAux_snd (cache : Cache) (now : Int) :
    ∀ (l : List String) (out : List (String × Option Q)) (tf : List String),
      (cachePassAux cache now l out tf).2 =
        tf ++ l.filter (fun t => !cacheFresh cache now t) := by
  intro l
  induction l with
  | nil => intro out tf; simp [cachePassAux]
  | cons u rest ih =>
    intro out tf
    simp only [cachePassAux, List.filter_cons]
    cases hu : getd cache u with
    | some e =>
      simp only
      by_cases hf : now - e.ts < TTL
      · rw [if_pos hf, ih]
        have hcf : cacheFresh cache now u = true := by
          simp [cacheFresh, hu, hf]
        simp [hcf]
      · rw [if_neg hf, ih]
        have hcf : cacheFresh cache now u = false := by
          simp [cacheFresh, hu, hf]
        simp [hcf]
    | none =>
      simp only
      rw [ih]
      have hcf : cacheFresh cache now u = false := by simp [cacheFresh, hu]
      simp [hcf]

theorem cachePassAux_fst_fresh (cache : Cache) (now : Int) (t : String)
    (e : Entry) (he : getd cache t = some e) (hf : now - e.ts < TTL) :
    ∀ (l : List String) (out : List (String × Option Q)) (tf : List String),
      (t ∈ l ∨ getd out t = some e.price) →
      getd (cachePassAux cache now l out tf).1 t = some e.price := by
  intro l
  induction l with
  | nil =>
    intro out tf h
    rcases h with h | h
    · cases h
    · simpa [cachePassAux] using h
  | cons u rest ih =>
    intro out tf h
    simp only [cachePassAux]
    cases hu : getd cache u with
    | some eu =>
      simp only
      by_cases hfu : now - eu.ts < TTL
      · rw [if_pos hfu]
        apply ih
        by_cases ht : t = u
        · subst ht
          rw [he] at hu
          cases hu
          exact Or.inr (getd_setd_self out t e.price)
        · rcases h with h | h
          · rcases List.mem_cons.mp h with h1 | h1
            · exact absurd h1 ht
            · exact Or.inl h1
          · exact Or.inr ((getd_setd_ne out eu.price ht).symm ▸ h)
      · rw [if_neg hfu]
        apply ih
        rcases h with h | h
        · rcases List.mem_cons.mp h with h1 | h1
          · subst h1
            rw [he] at hu
            cases hu
            exact absurd hf hfu
          · exact Or.inl h1
        · exact Or.inr h
    | none =>
      simp only
      apply ih
      rcases h with h | h
      · rcases List.mem_cons.mp h with h1 | h1
        · subst h1
          rw [he] at hu
          cases hu
        · exact Or.inl h1
      · exact Or.inr h

theorem cachePassAux_fst_not_mem (cache : Cache) (now : Int) (t : String) :
    ∀ (l : List String) (out : List (String × Option Q)) (tf : List String),
      t ∉ l →
      getd (cachePassAux cache now l out tf).1 t = getd out t := by
  intro l
  induction l with
  | nil => intro out tf _; simp [cachePassAux]
  | cons u rest ih =>
    intro out tf h
    have hu2 : t ∉ rest := fun hh => h (List.mem_cons_of_mem u hh)
    have hne : t ≠ u := fun hh => h (hh ▸ List.mem_cons_self u rest)
    simp only [cachePassAux]
    cases hu : getd cache u with
    | some e =>
      simp only
      by_cases hf : now - e.ts < TTL
      · rw [if_pos hf, ih _ _ hu2, getd_setd_ne out e.price hne]
      · rw [if_neg hf, ih _ _ hu2]
    | none =>
      simp only
      rw [ih _ _ hu2]

theorem nodup_keys_cachePassAux (cache : Cache) (now : Int) :
    ∀ (l : List String) (out : List (String × Option Q)) (tf : List String),
      (keys out).Nodup → (keys (cachePassAux cache now l out tf).1).Nodup := by
  intro l
  induction l with
  | nil => intro out tf h; simpa [cachePassAux] using h
  | cons u rest ih =>
    intro out tf h
    simp only [cachePassAux]
    cases hu : getd cache u with
    | some e =>
      simp only
      by_cases hf : now - e.ts < TTL
      · rw [if_pos hf]
        exact ih _ _ (nodup_keys_setd out u e.price h)
      · rw [if_neg hf]
        exact ih _ _ h
    | none => exact ih _ _ h

/-! ### Yahoo-fill lemmas -/

theorem yahooFillAux_still (y : List (String × Option Q)) (now : Int) :
    ∀ (l : List String) (out : List (String × Option Q)) (cache : Cache)
      (still : List String),
      (yahooFillAux y now l out cache still).2.2 =
        still ++ l.filter (fun t => ((getd y t).bind id).isNone) := by
  intro l
  induction l with
  | nil => intro out cache still; simp [yahooFillAux]
  | cons u rest ih =>
    intro out cache still
    simp only [yahooFillAux, List.filter_cons]
    cases hu : (getd y u).bind id with
    | some p => simp [hu, ih]
    | none => simp [hu, ih]

theorem yahooFillAux_out_success (y : List (String × Option Q)) (now : Int)
    (t : String) (p : Q) (hp : (getd y t).bind id = some p) :
    ∀ (l : List String) (out : List (String × Option Q)) (cache : Cache)
      (still : List String),
      (t ∈ l ∨ getd out t = some (some p)) →
      getd (yahooFillAux y now l out cache still).1 t = some (some p) := by
  intro l
  induction l with
  | nil =>
    intro out cache still h
    rcases h with h | h
    · cases h
    · simpa [yahooFillAux] using h
  | cons u rest ih =>
    intro out cache still h
    simp only [yahooFillAux]
    cases hu : (getd y u).bind id with
    | some pu =>
      apply ih
      by_cases ht : t = u
      · subst ht
        rw [hp] at hu
        cases hu
        exact Or.inr (getd_setd_self out t (some p))
      · rcases h with h | h
        · rcases List.mem_cons.mp h with h1 | h1
          · exact absurd h1 ht
          · exact Or.inl h1
        · exact Or.inr ((getd_setd_ne out (some pu) ht).symm ▸ h)
    | none =>
      apply ih
      rcases h with h | h
      · rcases List.mem_cons.mp h with h1 | h1
        · subst h1
          rw [hp] at hu
          cases hu
        · exact Or.inl h1
      · exact Or.inr h

theorem yahooFillAux_out_not_mem (y : List (String × Option Q)) (now : Int)
    (t : String) :
    ∀ (l : List String) (out : List (String × Option Q)) (cache : Cache)
      (still : List String),
      t ∉ l →
      getd (yahooFillAux y now l out cache still).1 t = getd out t := by
  intro l
  induction l with
  | nil => intro out cache still _; simp [yahooFillAux]
  | cons u rest ih =>
    intro out cache still h
    have hu2 : t ∉ rest := fun hh => h (List.mem_cons_of_mem u hh)
    have hne : t ≠ u := fun hh => h (hh ▸ List.mem_cons_self u rest)
    simp only [yahooFillAux]
    cases hu : (getd y u).bind id with
    | some p => rw [ih _ _ _ hu2, getd_setd_ne out (some p) hne]
    | none => rw [ih _ _ _ hu2]

theorem yahooFillAux_cache_good (y : List (String × Option Q)) (now : Int) :
    ∀ (l : List String) (out : List (String × Option Q)) (cache : Cache)
      (still : List String),
      goodCache cache → goodCache (yahooFillAux y now l out cache still).2.1 := by
  intro l
  induction l with
  | nil => intro out cache still h; simpa [yahooFillAux] using h
  | cons u rest ih =>
    intro out cache still h
    simp only [yahooFillAux]
    cases hu : (getd y u).bind id with
    | some p => exact ih _ _ _ (goodCache_setd cache u p now h)
    | none => exact ih _ _ _ h

theorem nodup_keys_yahooFillAux (y : List (String × Option Q)) (now : Int) :
    ∀ (l : List String) (out : List (String × Option Q)) (cache : Cache)
      (still : List String),
      (keys out).Nodup → (keys (yahooFillAux y now l out cache still).1).Nodup := by
  intro l
  induction l with
  | nil => intro out cache still h; simpa [yahooFillAux] using h
  | cons u rest ih =>
    intro out cache still h
    simp only [yahooFillAux]
    cases hu : (getd y u).bind id with
    | some p => exact ih _ _ _ (nodup_keys_setd out u (some p) h)
    | none => exact ih _ _ _ h

/-! ### Stooq-fill lemmas -/

theorem stooqFillAux_out_mem (s : List (String × Option Q)) (now : Int)
    (t : String) :
    ∀ (l : List String) (out : List (String × Option Q)) (cache : Cache),
      (t ∈ l ∨ getd out t = some ((getd s t).bind id)) →
      getd (stooqFillAux s now l out cache).1 t =
        some ((getd s t).bind id) := by
  intro l
  induction l with
  | nil =>
    intro out cache h
    rcases h with h | h
    · cases h
    · simpa [stooqFillAux] using h
  | cons u rest ih =>
    intro out cache h
    simp only [stooqFillAux]
    cases hu : (getd s u).bind id with
    | some p =>
      apply ih
      by_cases ht : t = u
      · subst ht
        rw [hu]
        exact Or.inr (getd_setd_self out t (some p))
      · rcases h with h | h
        · rcases List.mem_cons.mp h with h1 | h1
          · exact absurd h1 ht
          · exact Or.inl h1
        · exact Or.inr ((getd_setd_ne out (some p) ht).symm ▸ h)
    | none =>
      apply ih
      by_cases ht : t = u
      · subst ht
        rw [hu]
        exact Or.inr (getd_setd_self out t none)
      · rcases h with h | h
        · rcases List.mem_cons.mp h with h1 | h1
          · exact absurd h1 ht
          · exact Or.inl h1
        · exact Or.inr ((getd_setd_ne out none ht).symm ▸ h)

theorem stooqFillAux_out_not_mem (s : List (String × Option Q)) (now : Int)
    (t : String) :
    ∀ (l : List String) (out : List (String × Option Q)) (cache : Cache),
      t ∉ l →
      getd (stooqFillAux s now l out cache).1 t = getd out t := by
  intro l
  induction l with
  | nil => intro out cache _; simp [stooqFillAux]
  | cons u rest ih =>
    intro out cache h
    have hu2 : t ∉ rest := fun hh => h (List.mem_cons_of_mem u hh)
    have hne : t ≠ u := fun hh => h (hh ▸ List.mem_cons_self u rest)
    simp only [stooqFillAux]
    cases hu : (getd s u).bind id with
    | some p => rw [ih _ _ hu2, getd_setd_ne out (some p) hne]
    | none => rw [ih _ _ hu2, getd_setd_ne out none hne]

theorem stooqFillAux_cache_good (s : List (String × Option Q)) (now : Int) :
    ∀ (l : List String) (out : List (String × Option Q)) (cache : Cache),
      goodCache cache → goodCache (stooqFillAux s now l out cache).2 := by
  intro l
  induction l with
  | nil => intro out cache h; simpa [stooqFillAux] using h
  | cons u rest ih =>
    intro out cache h
    simp only [stooqFillAux]
    cases hu : (getd s u).bind id with
    | some p => exact ih _ _ (goodCache_setd cache u p now h)
    | none => exact ih _ _ h

theorem nodup_keys_stooqFillAux (s : List (String × Option Q)) (now : Int) :
    ∀ (l : List String) (out : List (String × Option Q)) (cache : Cache),
      (keys out).Nodup → (keys (stooqFillAux s now l out cache).1).Nodup := by
  intro l
  induction l with
  | nil => intro out cache h; simpa [stooqFillAux] using h
  | cons u rest ih =>
    intro out cache h
    simp only [stooqFillAux]
    cases hu : (getd s u).bind id with
    | some p => exact ih _ _ (nodup_keys_setd out u (some p) h)
    | none => exact ih _ _ (nodup_keys_setd out u none h)

/-! ### Claims -/

/-- Oracle pair for the batch-completeness scenario of the spec: Yahoo
answers 200 with prices for SMCI and TSLA only; Stooq answers 200 with no
rows, so MU fails on every provider. -/
def mixedOra : Oracles :=
  { yahoo := fun _ => YahooOutcome.resp 200
      (some [⟨some "SMCI", some 49⟩, ⟨some "TSLA", some 255⟩]),
    stooq := StooqOutcome.resp 200 [] }

/-- Oracle pair whose Yahoo GET raises a transport exception on every
attempt — allowed by the source, where `await client.get(url)` (main.py
line 36) sits outside the `try` — while Stooq would answer normally. -/
def crashOra : Oracles :=
  { yahoo := fun _ => YahooOutcome.err,
    stooq := StooqOutcome.resp 200 [] }

/-- Counterexample to C1 as stated: one provider failure — a Yahoo
transport error (timeout/connection failure), which main.py does not
catch — aborts the whole batch with an uncaught exception: no map is
returned at all, and every requested symbol is dropped instead of being
resolved through Stooq or reported as null. -/
theorem C1_counterexample :
    batch_quotes crashOra [] 0 "SMCI,MU,TSLA" =
      (BatchResult.uncaught, [], [Ev.call "yahoo" 0]) := by decide

/-- C1 amended, batch completeness: provided no Yahoo GET attempt raises
a transport exception (Yahoo's `client.get` sits outside its `try`, so
such an exception aborts the whole batch uncaught — see the
counterexample), every request string that parses to a nonempty symbol
list makes `batch_quotes` return an `ok` map: it has a key for every
requested (stripped, uppercased) symbol, its keys are unique (duplicates
in the request collapse), and all response-level failures — any HTTP
status, malformed bodies, Stooq transport errors — are absorbed
per-symbol.  In the spec's scenario — empty cache, MU failing on every
provider — the result is exactly `{SMCI: 49, TSLA: 255, MU: null}`: the
failing symbol maps to null and the others are unaffected. -/
theorem C1_batch_completeness :
    (∀ (ora : Oracles) (cache : Cache) (now : Int) (symbols : String),
      (∀ n, ora.yahoo n ≠ YahooOutcome.err) →
      parseSymbols symbols ≠ [] →
      ∃ m, (batch_quotes ora cache now symbols).1 = BatchResult.ok m ∧
        (∀ t ∈ parseSymbols symbols, (getd m t).isSome) ∧
        (keys m).Nodup) ∧
    okMap (batch_quotes mixedOra [] 0 "SMCI,MU,TSLA").1 =
      some [("SMCI", some 49), ("TSLA", some 255), ("MU", none)] := by
  constructor
  · intro ora cache now symbols hne hreq
    have hs : symbols ≠ "" := by
      intro h
      subst h
      exact hreq (by decide)
    have hnil : (keys ([] : List (String × Option Q))).Nodup := by
      simp [keys]
    simp only [batch_quotes]
    rw [if_neg hs, if_neg hreq]
    by_cases hcp : (cachePassAux cache now (parseSymbols symbols) [] []).2 = []
    · rw [if_pos hcp]
      refine ⟨_, rfl, fun t ht => getd_setdefaults_isSome _ _ t ht, ?_⟩
      exact nodup_keys_setdefaults _ _
        (nodup_keys_cachePassAux cache now _ [] [] hnil)
    · rw [if_neg hcp]
      obtain ⟨y, hy⟩ := yahooLoop_no_err ora.yahoo hne 4 0
        (initNone (cachePassAux cache now (parseSymbols symbols) [] []).2)
        now
      rw [show (yahoo_fetch ora.yahoo
        (cachePassAux cache now (parseSymbols symbols) [] []).2 now).1 =
        some y from hy]
      simp only
      by_cases hyf : (yahooFillAux y
          now (cachePassAux cache now (parseSymbols symbols) [] []).2
          (cachePassAux cache now (parseSymbols symbols) [] []).1
          cache []).2.2 = []
      · rw [if_pos hyf]
        refine ⟨_, rfl, fun t ht => getd_setdefaults_isSome _ _ t ht, ?_⟩
        exact nodup_keys_setdefaults _ _
          (nodup_keys_yahooFillAux _ now _ _ cache []
            (nodup_keys_cachePassAux cache now _ [] [] hnil))
      · rw [if_neg hyf]
        refine ⟨_, rfl, fun t ht => getd_setdefaults_isSome _ _ t ht, ?_⟩
        exact nodup_keys_setdefaults _ _
          (nodup_keys_stooqFillAux _ now _ _ _
            (nodup_keys_yahooFillAux _ now _ _ cache []
              (nodup_keys_cachePassAux cache now _ [] [] hnil)))
  · decide

/-- Witness for the amended C1 at a concrete input. -/
theorem C1_batch_completeness_witness :
    ∃ m, (batch_quotes mixedOra [] 0 "A").1 = BatchResult.ok m ∧
      (∀ t ∈ parseSymbols "A", (getd m t).isSome) ∧ (keys m).Nodup :=
  C1_batch_completeness.1 mixedOra [] 0 "A"
    (by intro n; simp [mixedOra]) (by decide)

/-- The single-symbol endpoint reduces to its fetch path whenever the cache
has no fresh entry for the ticker. -/
theorem stock_quote_not_fresh (ora : Oracles) (cache : Cache) (now : Int)
    (ticker : String) (h : cacheFresh cache now (upper ticker) = false) :
    stock_quote ora cache now ticker =
      stock_quote_fetch ora cache now (upper ticker) := by
  simp only [stock_quote]
  cases he : getd cache (upper ticker) with
  | some e =>
    simp only
    have hns : ¬(now - e.ts < TTL) := by
      intro hf
      have hcf : cacheFresh cache now (upper ticker) = true := by
        simp [cacheFresh, he, hf]
      rw [hcf] at h
      cases h
    rw [if_neg hns]
  | none => simp only

/-- C3, cache freshness: a `stock_quote` request strictly within `TTL` of
the cached timestamp returns the identical cached price marked
`cached: true`, changes nothing, and makes zero upstream calls (empty
trace); a `batch_quotes` request whose symbols are all fresh in the cache
likewise returns the cached prices with an empty trace and an unchanged
cache. -/
theorem C3_cache_freshness :
    (∀ (ora : Oracles) (cache : Cache) (now : Int) (ticker : String)
      (e : Entry), getd cache (upper ticker) = some e →
      now - e.ts < TTL →
      stock_quote ora cache now ticker =
        (StockResult.ok (upper ticker) e.price true, cache, [])) ∧
    (∀ (ora : Oracles) (cache : Cache) (now : Int) (symbols : String),
      parseSymbols symbols ≠ [] →
      (∀ t ∈ parseSymbols symbols, cacheFresh cache now t = true) →
      ∃ m, batch_quotes ora cache now symbols =
          (BatchResult.ok m, cache, []) ∧
        ∀ t e, t ∈ parseSymbols symbols → getd cache t = some e →
          getd m t = some e.price) := by
  constructor
  · intro ora cache now ticker e he hf
    simp only [stock_quote, he]
    rw [if_pos hf]
  · intro ora cache now symbols hreq hfresh
    have hs : symbols ≠ "" := by
      intro h
      subst h
      exact hreq (by decide)
    have htf : (cachePassAux cache now (parseSymbols symbols) [] []).2 = [] := by
      rw [cachePassAux_snd]
      simp only [List.nil_append]
      rw [List.filter_eq_nil_iff]
      intro a ha
      simp [hfresh a ha]
    simp only [batch_quotes]
    rw [if_neg hs, if_neg hreq, if_pos htf]
    refine ⟨_, rfl, ?_⟩
    intro t e ht he
    have hf : now - e.ts < TTL := by
      have := hfresh t ht
      rw [cacheFresh, he] at this
      exact of_decide_eq_true this
    exact getd_setdefaults_preserve _ _ t e.price
      (cachePassAux_fst_fresh cache now t e he hf _ [] [] (Or.inl ht))

/-- Witness for C3 at a concrete input. -/
theorem C3_cache_freshness_witness :
    stock_quote mixedOra [("MU", ⟨some 7, 0⟩)] 5000 "mu" =
      (StockResult.ok "MU" (some 7) true, [("MU", ⟨some 7, 0⟩)], []) ∧
    (∃ m, batch_quotes mixedOra [("MU", ⟨some 7, 0⟩)] 5000 "MU" =
        (BatchResult.ok m, [("MU", ⟨some 7, 0⟩)], []) ∧
      ∀ t e, t ∈ parseSymbols "MU" →
        getd [("MU", Entry.mk (some 7) 0)] t = some e →
        getd m t = some e.price) :=
  ⟨C3_cache_freshness.1 mixedOra [("MU", ⟨some 7, 0⟩)] 5000 "mu" ⟨some 7, 0⟩
      (by decide) (by decide),
   C3_cache_freshness.2 mixedOra [("MU", ⟨some 7, 0⟩)] 5000 "MU"
      (by decide) (by decide)⟩

/-- Oracle pair on which every provider fails: Yahoo answers a
non-retryable 404 and the Stooq GET raises a transport error. -/
def failOra : Oracles :=
  { yahoo := fun _ => YahooOutcome.resp 404 none,
    stooq := StooqOutcome.err }

/-- Counterexample to C2 as stated: the cache holds a stale entry for MU
(price 100, cached at time 0; the request arrives at 1000 seconds, far past
the 60-second TTL) and every provider fails.  The claim says the stale
cached quote is returned with `cached: true`; the code instead raises
HTTP 502 "Price unavailable" — there is no `getStale` path anywhere in
`stock_quote` — leaving the stale entry unused and unchanged. -/
theorem C2_counterexample :
    stock_quote failOra [("MU", ⟨some 100, 0⟩)] 1000000 "MU" =
      (StockResult.httpError 502 "Price unavailable",
        [("MU", ⟨some 100, 0⟩)],
        [Ev.call "yahoo" 1000000, Ev.call "stooq" 1000000]) := by decide

/-- C2 amended: when every provider fails to return a price, `stock_quote`
raises HTTP 502 "Price unavailable" and leaves the cache unchanged, even
when a (stale, past-TTL) cache entry for the symbol exists; expired cache
entries are never returned. -/
theorem C2_stale_fallback_amended :
    ∀ (ora : Oracles) (cache : Cache) (now : Int) (ticker : String)
      (e : Entry) (y : List (String × Option Q)),
      getd cache (upper ticker) = some e → ¬(now - e.ts < TTL) →
      (yahoo_fetch ora.yahoo [upper ticker] now).1 = some y →
      (getd y (upper ticker)).bind id = none →
      (getd (stooq_fetch ora.stooq [upper ticker]
        (yahoo_fetch ora.yahoo [upper ticker] now).2.2).1
        (upper ticker)).bind id = none →
      stock_quote ora cache now ticker =
        (StockResult.httpError 502 "Price unavailable", cache,
          (yahoo_fetch ora.yahoo [upper ticker] now).2.1 ++
          (stooq_fetch ora.stooq [upper ticker]
            (yahoo_fetch ora.yahoo [upper ticker] now).2.2).2.1) := by
  intro ora cache now ticker e y he hstale hyy hy hs
  simp only [stock_quote, he]
  rw [if_neg hstale]
  simp only [stock_quote_fetch, hyy, hy, hs]

/-- Witness for the amended C2 at a concrete input. -/
theorem C2_stale_fallback_amended_witness :
    stock_quote failOra [("MU", ⟨some 100, 0⟩)] 2000000 "MU" =
      (StockResult.httpError 502 "Price unavailable",
        [("MU", ⟨some 100, 0⟩)],
        (yahoo_fetch failOra.yahoo ["MU"] 2000000).2.1 ++
        (stooq_fetch failOra.stooq ["MU"]
          (yahoo_fetch failOra.yahoo ["MU"] 2000000).2.2).2.1) :=
  C2_stale_fallback_amended failOra [("MU", ⟨some 100, 0⟩)] 2000000 "MU"
    ⟨some 100, 0⟩ [("MU", none)] (by decide) (by decide) (by decide)
    (by decide) (by decide)

/-- C5, backoff policy: (1) a Yahoo fetch makes at most 4 upstream calls;
(2) on a non-retryable, non-200 first response it fails immediately —
exactly one call, no sleep, and the all-`None` map is returned rather than
an exception; (3) when every attempt hits a retryable status
(429/500/502/503/504), the four attempts are separated by sleeps of
600, 1200 and 1800 milliseconds (`0.6 * attemptNumber` seconds), a final
2400 ms sleep follows the last attempt, and the fetch returns the
all-`None` map (an unavailable outcome, not an exception). -/
theorem C5_backoff :
    (∀ (oracle : Nat → YahooOutcome) (syms : List String) (t0 : Int),
      countCalls (yahoo_fetch oracle syms t0).2.1 ≤ 4) ∧
    (∀ (oracle : Nat → YahooOutcome) (syms : List String) (t0 : Int)
      (st : Nat) (body : Option (List YahooItem)),
      oracle 0 = YahooOutcome.resp st body →
      st ≠ 200 → retryable st = false →
      yahoo_fetch oracle syms t0 =
        (some (initNone syms), [Ev.call "yahoo" t0], t0)) ∧
    (∀ (oracle : Nat → YahooOutcome) (syms : List String) (t0 : Int),
      (∀ n, ∃ st body, oracle n = YahooOutcome.resp st body ∧
        retryable st = true) →
      yahoo_fetch oracle syms t0 =
        (some (initNone syms),
          [Ev.call "yahoo" t0, Ev.sleep 600,
           Ev.call "yahoo" (t0 + 600), Ev.sleep 1200,
           Ev.call "yahoo" (t0 + 1800), Ev.sleep 1800,
           Ev.call "yahoo" (t0 + 3600), Ev.sleep 2400],
          t0 + 6000)) := by
  refine ⟨?_, ?_, ?_⟩
  · intro oracle syms t0
    exact yahooLoop_countCalls oracle 4 0 (initNone syms) t0
  · intro oracle syms t0 st body h0 h200 hretry
    have hr : ¬(retryable st = true) := by simp [hretry]
    simp only [yahoo_fetch, yahooLoop, h0, if_neg h200, if_neg hr]
  · intro oracle syms t0 h
    obtain ⟨st0, b0, he0, hr0⟩ := h 0
    obtain ⟨st1, b1, he1, hr1⟩ := h 1
    obtain ⟨st2, b2, he2, hr2⟩ := h 2
    obtain ⟨st3, b3, he3, hr3⟩ := h 3
    simp only [yahoo_fetch, yahooLoop, he0, he1, he2, he3,
      if_neg (retryable_ne_200 hr0), if_pos hr0,
      if_neg (retryable_ne_200 hr1), if_pos hr1,
      if_neg (retryable_ne_200 hr2), if_pos hr2,
      if_neg (retryable_ne_200 hr3), if_pos hr3]
    norm_num
    omega

/-- A Yahoo oracle that always answers 503 (retryable). -/
def retry503 : Nat → YahooOutcome := fun _ => YahooOutcome.resp 503 none

/-- Witness for C5 at concrete inputs. -/
theorem C5_backoff_witness :
    countCalls (yahoo_fetch failOra.yahoo ["A"] 0).2.1 ≤ 4 ∧
    yahoo_fetch failOra.yahoo ["A"] 0 =
      (some (initNone ["A"]), [Ev.call "yahoo" 0], 0) ∧
    yahoo_fetch retry503 ["A"] 0 =
      (some (initNone ["A"]),
        [Ev.call "yahoo" 0, Ev.sleep 600, Ev.call "yahoo" 600,
         Ev.sleep 1200, Ev.call "yahoo" 1800, Ev.sleep 1800,
         Ev.call "yahoo" 3600, Ev.sleep 2400], 6000) :=
  ⟨C5_backoff.1 failOra.yahoo ["A"] 0,
   C5_backoff.2.1 failOra.yahoo ["A"] 0 404 none rfl (by decide) (by decide),
   C5_backoff.2.2 retry503 ["A"] 0 (fun n => ⟨503, none, rfl, rfl⟩)⟩

/-- Oracle pair whose Yahoo answers 200 with price `0` for symbol XG. -/
def zeroOra : Oracles :=
  { yahoo := fun _ => YahooOutcome.resp 200 (some [⟨some "XG", some 0⟩]),
    stooq := StooqOutcome.err }

/-- Counterexample to C6 as stated: a Yahoo response carrying price `0`
for XG is accepted as a price — not treated as absent data — returned to
the caller, and written to the cache (`{"XG": {price: 0, ts: 5}}`).  The
code contains no positivity check, so the cached price is not strictly
positive as the claim requires. -/
theorem C6_counterexample :
    stock_quote zeroOra [] 5 "XG" =
      (StockResult.ok "XG" (some 0) false, [("XG", ⟨some 0, 5⟩)],
        [Ev.call "yahoo" 5]) := by decide

/-- C6 amended: the code never validates price values: whatever price the
Yahoo adapter reports — zero, negative or positive — is returned to the
caller and written to the cache unchanged; only a missing/`None` price is
treated as absent data. -/
theorem C6_amended :
    ∀ (ora : Oracles) (cache : Cache) (now : Int) (ticker : String)
      (p : Q) (y : List (String × Option Q)),
      cacheFresh cache now (upper ticker) = false →
      (yahoo_fetch ora.yahoo [upper ticker] now).1 = some y →
      (getd y (upper ticker)).bind id = some p →
      stock_quote ora cache now ticker =
        (StockResult.ok (upper ticker) (some p) false,
          setd cache (upper ticker) ⟨some p, now⟩,
          (yahoo_fetch ora.yahoo [upper ticker] now).2.1) := by
  intro ora cache now ticker p y hcf hyy hy
  rw [stock_quote_not_fresh ora cache now ticker hcf]
  simp only [stock_quote_fetch, hyy, hy]

/-- Witness for the amended C6 at price `0`. -/
theorem C6_amended_witness :
    stock_quote zeroOra [] 7 "XG" =
      (StockResult.ok "XG" (some 0) false, setd [] "XG" ⟨some 0, 7⟩,
        (yahoo_fetch zeroOra.yahoo ["XG"] 7).2.1) :=
  C6_amended zeroOra [] 7 "XG" 0 [("XG", some 0)] (by decide) (by decide)
    (by decide)

/-- C10, empty-batch rejection: a batch request with an empty symbols
string is rejected with HTTP 400 "symbols required", and one containing
only commas and whitespace with HTTP 400 "no valid symbols"; in both cases
the cache is returned unchanged and the upstream trace is empty (no cache
write and no fetch happened).  The third conjunct checks that a
commas-and-whitespace string indeed parses to no symbols. -/
theorem C10_empty_batch :
    (∀ (ora : Oracles) (cache : Cache) (now : Int),
      batch_quotes ora cache now "" =
        (BatchResult.httpError 400 "symbols required", cache, [])) ∧
    (∀ (ora : Oracles) (cache : Cache) (now : Int) (symbols : String),
      symbols ≠ "" → parseSymbols symbols = [] →
      batch_quotes ora cache now symbols =
        (BatchResult.httpError 400 "no valid symbols", cache, [])) ∧
    parseSymbols " , ,, " = [] := by
  refine ⟨?_, ?_, by decide⟩
  · intro ora cache now
    simp [batch_quotes]
  · intro ora cache now symbols hs hreq
    simp only [batch_quotes]
    rw [if_neg hs, if_pos hreq]

/-- Witness for C10 at a concrete input. -/
theorem C10_empty_batch_witness :
    batch_quotes mixedOra [] 0 " , ,, " =
      (BatchResult.httpError 400 "no valid symbols", [], []) :=
  C10_empty_batch.2.1 mixedOra [] 0 " , ,, " (by decide) (by decide)

/-- Counterexample to C7 as stated: two requests for uncached symbols
arriving at the same instant (t = 100000 ms; the second runs against the
cache state left by the first) each fire a Yahoo upstream call immediately
at t = 100000, i.e. the two consecutive permitted calls to the same
provider are 0 seconds apart — no `minGap` spacing is enforced, and indeed
the code contains no rate gate and defines no `minGap` at all. -/
theorem C7_counterexample :
    (stock_quote failOra [] 100000 "A").2.2.head? =
      some (Ev.call "yahoo" 100000) ∧
    (stock_quote failOra (stock_quote failOra [] 100000 "A").2.1 100000
      "B").2.2.head? = some (Ev.call "yahoo" 100000) := by decide

/-- The fetch path always opens its trace with a Yahoo call stamped with
the request time: no wait of any kind precedes the first upstream call. -/
theorem stock_quote_fetch_trace_head (ora : Oracles) (cache : Cache)
    (now : Int) (t : String) :
    ∃ rest, (stock_quote_fetch ora cache now t).2.2 =
      Ev.call "yahoo" now :: rest := by
  simp only [stock_quote_fetch]
  obtain ⟨rest, hrest⟩ := yahooLoop_head ora.yahoo 3 0 (initNone [t]) now
  cases hyy : (yahoo_fetch ora.yahoo [t] now).1 with
  | none =>
    simp only
    exact ⟨rest, hrest⟩
  | some y =>
    simp only
    cases hy : (getd y t).bind id with
    | some p =>
      simp only
      exact ⟨rest, hrest⟩
    | none =>
      simp only
      cases hs : (getd (stooq_fetch ora.stooq [t]
          (yahoo_fetch ora.yahoo [t] now).2.2).1 t).bind id with
      | some p =>
        simp only
        refine ⟨rest ++ (stooq_fetch ora.stooq [t]
          (yahoo_fetch ora.yahoo [t] now).2.2).2.1, ?_⟩
        rw [show (yahoo_fetch ora.yahoo [t] now).2.1 =
          Ev.call "yahoo" now :: rest from hrest]
        rfl
      | none =>
        simp only
        refine ⟨rest ++ (stooq_fetch ora.stooq [t]
          (yahoo_fetch ora.yahoo [t] now).2.2).2.1, ?_⟩
        rw [show (yahoo_fetch ora.yahoo [t] now).2.1 =
          Ev.call "yahoo" now :: rest from hrest]
        rfl

/-- C7 amended: there is no rate gate: whenever the cache has no fresh
entry for the ticker, the first upstream call is issued immediately at the
request's own timestamp, with no wait and no spacing from calls made by
other requests; the only delays in the system are the backoff sleeps
inside a single Yahoo fetch. -/
theorem C7_rate_spacing_amended :
    ∀ (ora : Oracles) (cache : Cache) (now : Int) (ticker : String),
      cacheFresh cache now (upper ticker) = false →
      ∃ rest, (stock_quote ora cache now ticker).2.2 =
        Ev.call "yahoo" now :: rest := by
  intro ora cache now ticker h
  rw [stock_quote_not_fresh ora cache now ticker h]
  exact stock_quote_fetch_trace_head ora cache now (upper ticker)

/-- Witness for the amended C7 at a concrete input. -/
theorem C7_rate_spacing_amended_witness :
    ∃ rest, (stock_quote failOra [] 100000 "B").2.2 =
      Ev.call "yahoo" 100000 :: rest :=
  C7_rate_spacing_amended failOra [] 100000 "B" (by decide)

/-- C8, normalization round-trip: the Stooq result map's key set is
exactly the caller's original symbols (never the lowercased `.us`
normalized forms); on a 200 response the value reported under an original
symbol is exactly the value the parsed CSV held under that symbol's
normalized key `upper (to_stooq_symbol s)`; on a transport error every
original symbol maps to `None` (still under the original key). -/
theorem C8_normalization :
    (∀ (oracle : StooqOutcome) (syms : List String) (t0 : Int) (t : String),
      (getd (stooq_fetch oracle syms t0).1 t).isSome ↔ t ∈ syms) ∧
    (∀ (rows : List StooqRow) (syms : List String) (t0 : Int) (t : String),
      t ∈ syms →
      getd (stooq_fetch (StooqOutcome.resp 200 rows) syms t0).1 t =
        some ((getd (parse_stooq_csv rows)
          (upper (to_stooq_symbol t))).bind id)) ∧
    (∀ (syms : List String) (t0 : Int) (t : String), t ∈ syms →
      getd (stooq_fetch StooqOutcome.err syms t0).1 t = some none) := by
  refine ⟨stooq_fetch_keys, stooq_fetch_getd_200, ?_⟩
  intro syms t0 t ht
  show getd (initNone syms) t = some none
  rw [getd_initNone, if_pos ht]

/-- Witness for C8 at concrete inputs. -/
theorem C8_normalization_witness :
    ((getd (stooq_fetch StooqOutcome.err ["TSLA"] 0).1 "TSLA").isSome ↔
      "TSLA" ∈ ["TSLA"]) ∧
    getd (stooq_fetch (StooqOutcome.resp 200
        [⟨some "tsla.us", some (CloseVal.num 7)⟩]) ["TSLA"] 0).1 "TSLA" =
      some ((getd (parse_stooq_csv
        [⟨some "tsla.us", some (CloseVal.num 7)⟩])
        (upper (to_stooq_symbol "TSLA"))).bind id) ∧
    getd (stooq_fetch StooqOutcome.err ["TSLA"] 0).1 "TSLA" = some none :=
  ⟨C8_normalization.1 StooqOutcome.err ["TSLA"] 0 "TSLA",
   C8_normalization.2.1 [⟨some "tsla.us", some (CloseVal.num 7)⟩]
     ["TSLA"] 0 "TSLA" (by decide),
   C8_normalization.2.2 ["TSLA"] 0 "TSLA" (by decide)⟩

/-- C4, fallback ordering.  Single-symbol path (given no fresh cache hit):
(i) Yahoo is attempted first — the trace opens with a Yahoo call at the
request time; and whenever the Yahoo fetch returns a result map `y`
(rather than raising): (ii) the chain stops at the first provider
returning a price — if Yahoo yields a price it is the caller-visible
result and no Stooq call appears in the trace; (iii) a Yahoo response
without a price does not abort the chain — the trace is exactly the Yahoo
events followed by one Stooq call.  Batch path (`tf` the cache misses,
`y` the Yahoo fetch for them, returning the map `ym`): if Yahoo priced
every miss, the trace holds Yahoo events only; if some miss got no Yahoo
price, exactly one Stooq call follows the Yahoo events; and a symbol
Yahoo priced keeps Yahoo's price in the final map — Stooq is queried only
for symbols Yahoo failed on. -/
theorem C4_fallback_ordering :
    (∀ (ora : Oracles) (cache : Cache) (now : Int) (ticker : String),
      cacheFresh cache now (upper ticker) = false →
      (∃ rest, (stock_quote ora cache now ticker).2.2 =
        Ev.call "yahoo" now :: rest) ∧
      (∀ y, (yahoo_fetch ora.yahoo [upper ticker] now).1 = some y →
        (∀ p, (getd y (upper ticker)).bind id = some p →
          (stock_quote ora cache now ticker).1 =
            StockResult.ok (upper ticker) (some p) false ∧
          ∀ u, Ev.call "stooq" u ∉ (stock_quote ora cache now ticker).2.2) ∧
        ((getd y (upper ticker)).bind id = none →
          (stock_quote ora cache now ticker).2.2 =
            (yahoo_fetch ora.yahoo [upper ticker] now).2.1 ++
            [Ev.call "stooq"
              (yahoo_fetch ora.yahoo [upper ticker] now).2.2]))) ∧
    (∀ (ora : Oracles) (cache : Cache) (now : Int) (symbols : String)
      (tf : List String)
      (y : Option (List (String × Option Q)) × List Ev × Int)
      (ym : List (String × Option Q)),
      tf = (cachePassAux cache now (parseSymbols symbols) [] []).2 →
      y = yahoo_fetch ora.yahoo tf now →
      y.1 = some ym →
      tf ≠ [] →
      ((∀ t ∈ tf, ((getd ym t).bind id).isSome) →
        (batch_quotes ora cache now symbols).2.2 = y.2.1) ∧
      ((∃ t ∈ tf, (getd ym t).bind id = none) →
        (batch_quotes ora cache now symbols).2.2 =
          y.2.1 ++ [Ev.call "stooq" y.2.2]) ∧
      (∀ t ∈ tf, ∀ p, (getd ym t).bind id = some p →
        ∀ m, (batch_quotes ora cache now symbols).1 = BatchResult.ok m →
          getd m t = some (some p))) := by
  constructor
  · intro ora cache now ticker hcf
    rw [stock_quote_not_fresh ora cache now ticker hcf]
    refine ⟨stock_quote_fetch_trace_head ora cache now (upper ticker), ?_⟩
    intro y hyy
    constructor
    · intro p hp
      constructor
      · simp only [stock_quote_fetch, hyy, hp]
      · intro u hmem
        simp only [stock_quote_fetch, hyy, hp] at hmem
        rcases yahooLoop_events ora.yahoo 4 0
            (initNone [upper ticker]) now _ hmem with ⟨u1, h1⟩ | ⟨d, h1⟩ <;>
          simp at h1
    · intro hnone
      simp only [stock_quote_fetch, hyy, hnone]
      cases hs : (getd (stooq_fetch ora.stooq [upper ticker]
          (yahoo_fetch ora.yahoo [upper ticker] now).2.2).1
          (upper ticker)).bind id with
      | some p =>
        simp only
        rw [stooq_trace]
      | none =>
        simp only
        rw [stooq_trace]
  · intro ora cache now symbols tf y ym htf hy hym htfne
    have hreq : parseSymbols symbols ≠ [] := by
      intro h
      apply htfne
      rw [htf, h]
      rfl
    have hs : symbols ≠ "" := by
      intro h
      subst h
      exact hreq (by decide)
    subst htf
    subst hy
    have hstill := yahooFillAux_still ym now
      (cachePassAux cache now (parseSymbols symbols) [] []).2
      (cachePassAux cache now (parseSymbols symbols) [] []).1 cache []
    refine ⟨?_, ?_, ?_⟩
    · intro hall
      have hse : (yahooFillAux ym
          now (cachePassAux cache now (parseSymbols symbols) [] []).2
          (cachePassAux cache now (parseSymbols symbols) [] []).1
          cache []).2.2 = [] := by
        rw [hstill]
        simp only [List.nil_append]
        rw [List.filter_eq_nil_iff]
        intro a ha
        have := hall a ha
        simp only [Option.isNone_iff_eq_none]
        intro hcon
        rw [hcon] at this
        cases this
      simp only [batch_quotes]
      rw [if_neg hs, if_neg hreq, if_neg htfne, hym]
      simp only
      rw [if_pos hse]
    · intro hex
      obtain ⟨t0m, ht0m, hnone⟩ := hex
      have hsne : (yahooFillAux ym
          now (cachePassAux cache now (parseSymbols symbols) [] []).2
          (cachePassAux cache now (parseSymbols symbols) [] []).1
          cache []).2.2 ≠ [] := by
        rw [hstill]
        simp only [List.nil_append]
        apply List.ne_nil_of_mem
        apply List.mem_filter.mpr
        refine ⟨ht0m, ?_⟩
        simp only [Option.isNone_iff_eq_none]
        exact hnone
      simp only [batch_quotes]
      rw [if_neg hs, if_neg hreq, if_neg htfne, hym]
      simp only
      rw [if_neg hsne]
      rw [stooq_trace]
    · intro t ht p hp m hok
      simp only [batch_quotes] at hok
      rw [if_neg hs, if_neg hreq, if_neg htfne, hym] at hok
      simp only at hok
      have hyout : getd (yahooFillAux ym
          now (cachePassAux cache now (parseSymbols symbols) [] []).2
          (cachePassAux cache now (parseSymbols symbols) [] []).1
          cache []).1 t = some (some p) :=
        yahooFillAux_out_success ym now t p hp _ _ cache [] (Or.inl ht)
      by_cases hse : (yahooFillAux ym
          now (cachePassAux cache now (parseSymbols symbols) [] []).2
          (cachePassAux cache now (parseSymbols symbols) [] []).1
          cache []).2.2 = []
      · rw [if_pos hse] at hok
        simp only at hok
        injection hok with hm
        subst hm
        exact getd_setdefaults_preserve _ _ t (some p) hyout
      · rw [if_neg hse] at hok
        simp only at hok
        injection hok with hm
        subst hm
        have htns : t ∉ (yahooFillAux ym
            now (cachePassAux cache now (parseSymbols symbols) [] []).2
            (cachePassAux cache now (parseSymbols symbols) [] []).1
            cache []).2.2 := by
          rw [hstill]
          simp only [List.nil_append]
          intro hmem
          have := (List.mem_filter.mp hmem).2
          rw [hp] at this
          cases this
        apply getd_setdefaults_preserve
        rw [stooqFillAux_out_not_mem _ now t _ _ _ htns]
        exact hyout

/-- Witness for C4 at concrete inputs. -/
theorem C4_fallback_ordering_witness :
    ((∃ rest, (stock_quote mixedOra [] 0 "SMCI").2.2 =
        Ev.call "yahoo" 0 :: rest) ∧
      (∀ y, (yahoo_fetch mixedOra.yahoo ["SMCI"] 0).1 = some y →
        (∀ p, (getd y "SMCI").bind id = some p →
          (stock_quote mixedOra [] 0 "SMCI").1 =
            StockResult.ok "SMCI" (some p) false ∧
          ∀ u, Ev.call "stooq" u ∉ (stock_quote mixedOra [] 0 "SMCI").2.2) ∧
        ((getd y "SMCI").bind id = none →
          (stock_quote mixedOra [] 0 "SMCI").2.2 =
            (yahoo_fetch mixedOra.yahoo ["SMCI"] 0).2.1 ++
            [Ev.call "stooq"
              (yahoo_fetch mixedOra.yahoo ["SMCI"] 0).2.2]))) ∧
    (((∀ t ∈ ["MU"],
          ((getd [("MU", (none : Option Q))] t).bind id).isSome) →
        (batch_quotes failOra [] 0 "MU").2.2 =
          (yahoo_fetch failOra.yahoo ["MU"] 0).2.1) ∧
      ((∃ t ∈ ["MU"],
          (getd [("MU", (none : Option Q))] t).bind id = none) →
        (batch_quotes failOra [] 0 "MU").2.2 =
          (yahoo_fetch failOra.yahoo ["MU"] 0).2.1 ++
          [Ev.call "stooq" (yahoo_fetch failOra.yahoo ["MU"] 0).2.2]) ∧
      (∀ t ∈ ["MU"], ∀ p,
          (getd [("MU", (none : Option Q))] t).bind id = some p →
        ∀ m, (batch_quotes failOra [] 0 "MU").1 = BatchResult.ok m →
          getd m t = some (some p))) :=
  ⟨C4_fallback_ordering.1 mixedOra [] 0 "SMCI" (by decide),
   C4_fallback_ordering.2 failOra [] 0 "MU" ["MU"]
     (yahoo_fetch failOra.yahoo ["MU"] 0) [("MU", none)]
     (by decide) rfl (by decide) (by decide)⟩

/-- A fresh cache hit returns the cached price tagged `cached: true`,
leaves the cache unchanged and makes no upstream call. -/
theorem stock_quote_fresh_eq (ora : Oracles) (cache : Cache) (now : Int)
    (ticker : String) (e : Entry) (he : getd cache (upper ticker) = some e)
    (hf : now - e.ts < TTL) :
    stock_quote ora cache now ticker =
      (StockResult.ok (upper ticker) e.price true, cache, []) := by
  simp only [stock_quote, he]
  rw [if_pos hf]

/-- Either the ticker has no fresh cache entry, or a fresh entry exists. -/
theorem cacheFresh_cases (cache : Cache) (now : Int) (t : String) :
    cacheFresh cache now t = false ∨
    ∃ e, getd cache t = some e ∧ now - e.ts < TTL := by
  cases hg : getd cache t with
  | some e =>
    by_cases hf : now - e.ts < TTL
    · exact Or.inr ⟨e, hg ▸ rfl, hf⟩
    · left
      simp [cacheFresh, hg, hf]
  | none =>
    left
    simp [cacheFresh, hg]

/-- The fetch path writes to the cache only prices wrapped in `some`. -/
theorem stock_quote_fetch_cache_good (ora : Oracles) (cache : Cache)
    (now : Int) (t : String) (h : goodCache cache) :
    goodCache (stock_quote_fetch ora cache now t).2.1 := by
  simp only [stock_quote_fetch]
  cases hyy : (yahoo_fetch ora.yahoo [t] now).1 with
  | none =>
    simp only
    exact h
  | some y =>
    simp only
    cases hy : (getd y t).bind id with
    | some p =>
      simp only
      exact goodCache_setd cache t p now h
    | none =>
      simp only
      cases hs : (getd (stooq_fetch ora.stooq [t]
          (yahoo_fetch ora.yahoo [t] now).2.2).1 t).bind id with
      | some p =>
        simp only
        exact goodCache_setd cache t p now h
      | none =>
        simp only
        exact h

/-- The fetch path never reports `cached: true`. -/
theorem stock_quote_fetch_not_cached (ora : Oracles) (cache : Cache)
    (now : Int) (t t2 : String) (pr : Option Q) (c : Bool)
    (h : (stock_quote_fetch ora cache now t).1 = StockResult.ok t2 pr c) :
    c = false := by
  simp only [stock_quote_fetch] at h
  cases hyy : (yahoo_fetch ora.yahoo [t] now).1 with
  | none =>
    rw [hyy] at h
    simp only at h
    cases h
  | some y =>
    rw [hyy] at h
    simp only at h
    cases hy : (getd y t).bind id with
    | some p =>
      rw [hy] at h
      simp only at h
      injection h with h1 h2 h3
      exact h3.symm
    | none =>
      rw [hy] at h
      simp only at h
      cases hs : (getd (stooq_fetch ora.stooq [t]
          (yahoo_fetch ora.yahoo [t] now).2.2).1 t).bind id with
      | some p =>
        rw [hs] at h
        simp only at h
        injection h with h1 h2 h3
        exact h3.symm
      | none =>
        rw [hs] at h
        simp only at h
        cases h

/-- The empty cache is well formed. -/
theorem goodCache_nil : goodCache [] := by
  intro t e h
  cases h

/-- A one-entry cache holding a `some` price is well formed. -/
theorem goodCache_single (k : String) (p : Q) (ts : Int) :
    goodCache [(k, ⟨some p, ts⟩)] := by
  intro t e h
  simp only [getd] at h
  by_cases hk : k = t
  · rw [if_pos hk] at h
    cases h
    rfl
  · rw [if_neg hk] at h
    cases h

/-- C9, cache-value invariant: both endpoints write to the cache only
after a provider returned a non-`None` price, so a well-formed cache
(every entry's price is `some`) stays well formed across `stock_quote` and
`batch_quotes`; consequently a fresh cache hit never yields null: a
`cached: true` answer of `stock_quote` carries a `some` price, and a batch
symbol served from a fresh entry maps to that entry's non-`None` price. -/
theorem C9_cache_invariant :
    (∀ (ora : Oracles) (cache : Cache) (now : Int) (ticker : String),
      goodCache cache →
      goodCache (stock_quote ora cache now ticker).2.1) ∧
    (∀ (ora : Oracles) (cache : Cache) (now : Int) (symbols : String),
      goodCache cache →
      goodCache (batch_quotes ora cache now symbols).2.1) ∧
    (∀ (ora : Oracles) (cache : Cache) (now : Int) (ticker t : String)
      (pr : Option Q), goodCache cache →
      (stock_quote ora cache now ticker).1 = StockResult.ok t pr true →
      pr.isSome) ∧
    (∀ (ora : Oracles) (cache : Cache) (now : Int) (symbols : String)
      (t : String) (e : Entry), goodCache cache →
      t ∈ parseSymbols symbols → getd cache t = some e →
      now - e.ts < TTL →
      ∀ m, (batch_quotes ora cache now symbols).1 = BatchResult.ok m →
        getd m t = some e.price ∧ e.price.isSome) := by
  refine ⟨?_, ?_, ?_, ?_⟩
  · intro ora cache now ticker h
    rcases cacheFresh_cases cache now (upper ticker) with hcf | ⟨e, he, hf⟩
    · rw [stock_quote_not_fresh ora cache now ticker hcf]
      exact stock_quote_fetch_cache_good ora cache now (upper ticker) h
    · rw [stock_quote_fresh_eq ora cache now ticker e he hf]
      exact h
  · intro ora cache now symbols h
    by_cases hs : symbols = ""
    · subst hs
      simpa [batch_quotes] using h
    · simp only [batch_quotes]
      rw [if_neg hs]
      by_cases hreq : parseSymbols symbols = []
      · rw [if_pos hreq]
        exact h
      · rw [if_neg hreq]
        by_cases htf :
            (cachePassAux cache now (parseSymbols symbols) [] []).2 = []
        · rw [if_pos htf]
          exact h
        · rw [if_neg htf]
          cases hyy : (yahoo_fetch ora.yahoo
              (cachePassAux cache now (parseSymbols symbols) [] []).2
              now).1 with
          | none =>
            simp only
            exact h
          | some y =>
            simp only
            by_cases hse : (yahooFillAux y
                now (cachePassAux cache now (parseSymbols symbols) [] []).2
                (cachePassAux cache now (parseSymbols symbols) [] []).1
                cache []).2.2 = []
            · rw [if_pos hse]
              exact yahooFillAux_cache_good _ now _ _ cache [] h
            · rw [if_neg hse]
              exact stooqFillAux_cache_good _ now _ _ _
                (yahooFillAux_cache_good _ now _ _ cache [] h)
  · intro ora cache now ticker t pr h hok
    rcases cacheFresh_cases cache now (upper ticker) with hcf | ⟨e, he, hf⟩
    · rw [stock_quote_not_fresh ora cache now ticker hcf] at hok
      have := stock_quote_fetch_not_cached ora cache now
        (upper ticker) t pr true hok
      cases this
    · rw [stock_quote_fresh_eq ora cache now ticker e he hf] at hok
      simp only at hok
      injection hok with h1 h2 h3
      subst h2
      exact h (upper ticker) e he
  · intro ora cache now symbols t e h ht he hf m hok
    have hreq : parseSymbols symbols ≠ [] := List.ne_nil_of_mem ht
    have hs : symbols ≠ "" := by
      intro hh
      subst hh
      exact hreq (by decide)
    simp only [batch_quotes] at hok
    rw [if_neg hs, if_neg hreq] at hok
    have hcf : cacheFresh cache now t = true := by simp [cacheFresh, he, hf]
    have hout :
        getd (cachePassAux cache now (parseSymbols symbols) [] []).1 t =
          some e.price :=
      cachePassAux_fst_fresh cache now t e he hf _ [] [] (Or.inl ht)
    have hnt : t ∉ (cachePassAux cache now (parseSymbols symbols) [] []).2 := by
      rw [cachePassAux_snd]
      simp only [List.nil_append]
      intro hmem
      have hpred := (List.mem_filter.mp hmem).2
      rw [hcf] at hpred
      simp at hpred
    by_cases htf : (cachePassAux cache now (parseSymbols symbols) [] []).2 = []
    · rw [if_pos htf] at hok
      simp only at hok
      injection hok with hm
      subst hm
      exact ⟨getd_setdefaults_preserve _ _ t e.price hout, h t e he⟩
    · rw [if_neg htf] at hok
      rcases hyy : (yahoo_fetch ora.yahoo
          (cachePassAux cache now (parseSymbols symbols) [] []).2 now).1
        with _ | y
      · rw [hyy] at hok
        simp only at hok
        cases hok
      · rw [hyy] at hok
        simp only at hok
        have hyf : getd (yahooFillAux y
            now (cachePassAux cache now (parseSymbols symbols) [] []).2
            (cachePassAux cache now (parseSymbols symbols) [] []).1
            cache []).1 t = some e.price := by
          rw [yahooFillAux_out_not_mem _ now t _ _ cache [] hnt]
          exact hout
        by_cases hse : (yahooFillAux y
            now (cachePassAux cache now (parseSymbols symbols) [] []).2
            (cachePassAux cache now (parseSymbols symbols) [] []).1
            cache []).2.2 = []
        · rw [if_pos hse] at hok
          simp only at hok
          injection hok with hm
          subst hm
          exact ⟨getd_setdefaults_preserve _ _ t e.price hyf, h t e he⟩
        · rw [if_neg hse] at hok
          simp only at hok
          injection hok with hm
          subst hm
          have hnst : t ∉ (yahooFillAux y
              now (cachePassAux cache now (parseSymbols symbols) [] []).2
              (cachePassAux cache now (parseSymbols symbols) [] []).1
              cache []).2.2 := by
            rw [yahooFillAux_still]
            simp only [List.nil_append]
            intro hmem
            exact hnt ((List.mem_filter.mp hmem).1)
          refine ⟨?_, h t e he⟩
          apply getd_setdefaults_preserve
          rw [stooqFillAux_out_not_mem _ now t _ _ _ hnst]
          exact hyf

/-- Witness for C9 at concrete inputs. -/
theorem C9_cache_invariant_witness :
    goodCache (stock_quote mixedOra [] 0 "SMCI").2.1 ∧
    goodCache (batch_quotes mixedOra [] 0 "SMCI,MU").2.1 ∧
    ((stock_quote mixedOra [("MU", ⟨some 7, 0⟩)] 5000 "MU").1 =
        StockResult.ok "MU" (some 7) true → (some (7 : Q)).isSome) ∧
    (∀ m, (batch_quotes mixedOra [("MU", ⟨some 7, 0⟩)] 5000 "MU").1 =
        BatchResult.ok m →
      getd m "MU" = some (some 7) ∧ (some (7 : Q)).isSome) :=
  ⟨C9_cache_invariant.1 mixedOra [] 0 "SMCI" goodCache_nil,
   C9_cache_invariant.2.1 mixedOra [] 0 "SMCI,MU" goodCache_nil,
   C9_cache_invariant.2.2.1 mixedOra [("MU", ⟨some 7, 0⟩)] 5000 "MU" "MU"
     (some 7) (goodCache_single "MU" 7 0),
   C9_cache_invariant.2.2.2 mixedOra [("MU", ⟨some 7, 0⟩)] 5000 "MU" "MU"
     ⟨some 7, 0⟩ (goodCache_single "MU" 7 0) (by decide) (by decide)
     (by decide)⟩
